import Mathlib

/-!
Shallow embedding of the parallel bidirectional-flow coordination logic of
the mdp-toolkit repository (`binet/parallel/parallelbiflow.py`) and of the
polynomial expansion nodes (`mdp/nodes/expansion_nodes.py`), together with
theorems settling the specification claims about them.

Python values flowing through the bidirectional routing protocol are plain
objects; the protocol only distinguishes `None`, mappings (dicts) and
tuples, which is captured by `PyResult`.  BiFlow nodes are stateful Python
objects; they are embedded as an explicit state type `S` acted on by the
operation record `BiOps`.  Exceptions become explicit `Except` results with
the error kind recorded in `PBErr`.
-/

namespace MdpParallel

/-- Shape of a value returned by `BiFlowNode.train` / `stop_training`:
`None`, a mapping (dict, with payload `d`), or a tuple of fields. -/
inductive PyResult (V : Type) where
  | pyNone : PyResult V
  | pyDict (d : V) : PyResult V
  | pyTuple (fields : List V) : PyResult V
deriving DecidableEq, Repr

/-- Error kinds raised by the coordination code.  Each constructor records
which Python exception it embeds:
* `malformedRouting r` — `BiFlowException` ("Target node not found in flow
  ..., last result: r"), the spec's MalformedRoutingError, carrying the
  offending value `r`;
* `repeatedIter i` — `mdp.FlowException` ("The training data iteration for
  node no. i+1 could not be repeated for the second training phase ...");
* `emptyIter i` — `mdp.FlowException` ("The training data iterator for node
  no. i+1 is empty."), the spec's EmptyIteratorError;
* `noResults` — the exception "Could not get any training tasks or results
  for the current training phase.", the spec's NoResultsError;
* `trainingInProgress` — `ParallelBiFlowException` ("Parallel training is
  underway."), the spec's TrainingInProgressError;
* `callableNoScheduler` — `ParallelBiFlowException` ("A train_callable_class
  was specified but no scheduler was given ...");
* `resultMismatch` — `BiFlowException` ("Some but not all y return values
  were None."), the spec's ResultMismatchError;
* `outOfFuel` — marker for a Python `while` loop that has not terminated
  within the modelling fuel (no exception corresponds to it). -/
inductive PBErr (V : Type) where
  | malformedRouting (offending : PyResult V) : PBErr V
  | repeatedIter (node : Nat) : PBErr V
  | emptyIter (node : Nat) : PBErr V
  | noResults : PBErr V
  | trainingInProgress : PBErr V
  | callableNoScheduler : PBErr V
  | resultMismatch : PBErr V
  | outOfFuel : PBErr V
deriving DecidableEq, Repr

/-- Operations of a `BiFlowNode` (and of the flow wrapping the same node
objects), embedded over an explicit node-state type `S` with value type `V`:
* `train s x msg` — `biflownode.train(x, msg)`: new state and routing result;
* `stopTraining s m` — `biflownode.stop_training(m)`: new state and result;
* `biReset` — `bi_reset` / `_bi_reset`: clear the bidirectional buffers;
* `purgeNodes` — `purge_nodes`: replace unneeded nodes by dummies;
* `join` — `biflownode.join(forked)`: merge a forked node back;
* `fork` — `biflownode.fork()`: `none` embeds
  `TrainingPhaseNotParallelException` (the spec's UnsupportedForkError);
* `nodeIsTraining s i` — `flow[i].is_training()` read from the node state;
* `currentTrainPhase s i` — `flow[i].get_current_train_phase()`.  Modelled
  from the spec: the mdp `Node` phase counter is not under `src/`; per the
  spec contract `currentTrainPhase() -> int` and the mdp convention it
  counts completed phases starting at 0 (first phase = 0). -/
structure BiOps (S V : Type) where
  train : S → V → V → S × PyResult V
  stopTraining : S → Option V → S × PyResult V
  biReset : S → S
  purgeNodes : S → S
  join : S → S → S
  fork : S → Option S
  nodeIsTraining : S → Nat → Bool
  currentTrainPhase : S → Nat → Nat

variable {S V : Type}

/-- `BiFlowTrainCallable.__call__` (parallelbiflow.py lines 42-62): loop
`biflownode.train(x, msg)`; stop on `None` or a dict; on a 4-tuple reenter
with its first two fields; on any other shape raise `BiFlowException`
carrying the offending value.  After the loop `bi_reset` and, when
`purge` is set, `purge_nodes`; the node is the task result.  The Python
`while True` is given explicit fuel; exhaustion is `PBErr.outOfFuel`. -/
def biFlowTrainCall (ops : BiOps S V) (purge : Bool) :
    Nat → S → V → V → Except (PBErr V) S
  | 0, _, _, _ => .error .outOfFuel
  | Nat.succ fuel, s, x, msg =>
    match ops.train s x msg with
    | (s1, .pyNone) =>
        .ok (if purge then ops.purgeNodes (ops.biReset s1) else ops.biReset s1)
    | (s1, .pyDict _) =>
        .ok (if purge then ops.purgeNodes (ops.biReset s1) else ops.biReset s1)
    | (s1, .pyTuple [a, b, _, _]) => biFlowTrainCall ops purge fuel s1 a b
    | (_, r) => .error (.malformedRouting r)

/-- The `stop_training` step with result check shared by
`ParallelBiFlow._local_train_phase` (lines 457-466) and
`ParallelBiFlow.use_results` (lines 620-629): call `stop_training` with the
phase's stop message; if the result is neither `None` nor a dict raise
`BiFlowException` carrying it; otherwise reset the bidirectional buffers. -/
def stopTrainingChecked (ops : BiOps S V) (fn : S) (stopMsg : Option V) :
    Except (PBErr V) S :=
  match ops.stopTraining fn stopMsg with
  | (fn2, .pyNone) => .ok (ops.biReset fn2)
  | (fn2, .pyDict _) => .ok (ops.biReset fn2)
  | (_, r) => .error (.malformedRouting r)

/-- The data loop of `ParallelBiFlow._local_train_phase` (lines 442-452):
the train callable (with `purge_nodes=False`) is driven over every
`(x, msg)` pair of the local iterator, threading the node state. -/
def localTrainSteps (ops : BiOps S V) (fuel : Nat) :
    S → List (V × V) → Except (PBErr V) S
  | fn, [] => .ok fn
  | fn, (x, msg) :: rest => do
    let fn1 ← biFlowTrainCall ops false fuel fn x msg
    localTrainSteps ops fuel fn1 rest

/-- `ParallelBiFlow._local_train_phase` (lines 437-466): train over the full
local iterator, then `stop_training` with result check and `_bi_reset`. -/
def localTrainPhase (ops : BiOps S V) (fuel : Nat) (fn : S)
    (data : List (V × V)) (stopMsg : Option V) : Except (PBErr V) S := do
  let fn1 ← localTrainSteps ops fuel fn data
  stopTrainingChecked ops fn1 stopMsg

/-- State of a `ParallelBiFlow` training run: the canonical flow node
(`self._flownode`, whose node objects are shared with `self.flow`) and the
phase cursor `self._i_train_node`. -/
structure TrainState (S : Type) where
  flownode : S
  iTrainNode : Nat
deriving DecidableEq, Repr

/-- Training branch of `ParallelBiFlow.use_results` (lines 617-636): join
every returned forked node into the canonical flow node, call
`stop_training` with the current phase's stop message and check its result,
`bi_reset`, then advance the cursor exactly when the node's training is
finished.  The subsequent `self._next_train_phase()` call (line 637) is
modelled separately by `nextTrainPhase`.  `stopMsgs i` embeds
`self._stop_messages[self._i_train_node]` (entries may be `None`). -/
def useResultsTrain (ops : BiOps S V) (stopMsgs : Nat → Option V)
    (st : TrainState S) (results : List S) : Except (PBErr V) (TrainState S) := do
  let fn1 := results.foldl ops.join st.flownode
  let fn2 ← stopTrainingChecked ops fn1 (stopMsgs st.iTrainNode)
  let i := st.iTrainNode
  .ok ⟨fn2, if ops.nodeIsTraining fn2 i then i else i + 1⟩

/-- One result-batch step of the scheduler loop in `ParallelBiFlow.train`
(lines 293-299): `results = scheduler.get_results()`; an empty batch raises
"Could not get any training tasks or results for the current training
phase." and otherwise the batch is passed to `use_results`. -/
def processResultBatch (ops : BiOps S V) (stopMsgs : Nat → Option V)
    (st : TrainState S) (results : List S) : Except (PBErr V) (TrainState S) :=
  match results with
  | [] => .error .noResults
  | _ => useResultsTrain ops stopMsgs st results

/-- Outcome of the phase search `_next_train_phase`:
* `ready fn chunk taskNode` — a parallel phase was set up: canonical node
  `fn`, first task data `chunk` (`task_data_chunk`) and the forked node
  bound into the task callable (`self._flownode.fork()` with
  `purge_nodes=True`);
* `finished fn` — every node is trained (`self._i_train_node = None`). -/
inductive PhaseOutcome (S V : Type) where
  | ready (fn : S) (chunk : V × V) (taskNode : S) : PhaseOutcome S V
  | finished (fn : S) : PhaseOutcome S V
deriving DecidableEq, Repr

/-- `ParallelBiFlow._next_train_phase` (lines 368-435): scan nodes from the
cursor; skip nodes that are not training; for a training node attempt
`self._flownode.fork()`.  On success take the first `(x, msg)` item of the
node's training iterable (`trainData i`); if there is none raise
`mdp.FlowException` with the repeated-iteration diagnostic when the node's
current train phase equals 1 and the empty-iterator diagnostic otherwise;
with a first item the phase is ready.  On a fork failure
(`TrainingPhaseNotParallelException`) train locally via
`_local_train_phase`, advance the cursor when the node finished training,
and continue the scan.  The `while` loop carries explicit fuel;
`callableFuel` is the fuel handed to each train-callable invocation. -/
def nextTrainPhase (ops : BiOps S V) (callableFuel : Nat) (flowLen : Nat)
    (trainData : Nat → List (V × V)) (stopMsgs : Nat → Option V) :
    Nat → S → Nat → Except (PBErr V) (PhaseOutcome S V)
  | 0, _, _ => .error .outOfFuel
  | Nat.succ fuel, fn, i =>
    if i < flowLen then
      if ops.nodeIsTraining fn i then
        match ops.fork fn with
        | some forked =>
          match (trainData i).head? with
          | none =>
            if ops.currentTrainPhase fn i = 1 then .error (.repeatedIter i)
            else .error (.emptyIter i)
          | some chunk => .ok (.ready fn chunk forked)
        | none => do
          let fn1 ← localTrainPhase ops callableFuel fn (trainData i) (stopMsgs i)
          let i1 := if ops.nodeIsTraining fn1 i then i else i + 1
          nextTrainPhase ops callableFuel flowLen trainData stopMsgs fuel fn1 i1
      else nextTrainPhase ops callableFuel flowLen trainData stopMsgs fuel fn (i + 1)
    else .ok (.finished fn)

/-- Entry guards of `ParallelBiFlow.train` (lines 239-248): reject when
parallel training is underway (`self.is_parallel_training`, the active
phase cursor of a previous run — the predicate lives in
`mdp.parallel.ParallelFlow`, outside the sources, and is modelled from the
spec as "a previous run's phase cursor is still active"); without a
scheduler reject a supplied `train_callable_class`, otherwise train
sequentially; with a scheduler run the parallel path.  The sequential and
parallel continuations are opaque parameters `seqTrain` / `parTrain`. -/
def trainEntry {A : Type} (V : Type) (isParallelTraining : Bool)
    (schedulerGiven : Bool) (trainCallableClassGiven : Bool)
    (seqTrain : A) (parTrain : A) : Except (PBErr V) A :=
  if isParallelTraining then .error .trainingInProgress
  else if schedulerGiven then .ok parTrain
  else if trainCallableClassGiven then .error .callableNoScheduler
  else .ok seqTrain

/-- Entry guards of `ParallelBiFlow.execute` (lines 508-519), exactly
analogous to `trainEntry`: reject while a run's phase cursor is active;
reject an `execute_callable_class` given without a scheduler before any
execution is performed. -/
def executeEntry {A : Type} (V : Type) (isParallelTraining : Bool)
    (schedulerGiven : Bool) (executeCallableClassGiven : Bool)
    (seqExecute : A) (parExecute : A) : Except (PBErr V) A :=
  if isParallelTraining then .error .trainingInProgress
  else if schedulerGiven then .ok parExecute
  else if executeCallableClassGiven then .error .callableNoScheduler
  else .ok seqExecute

/-- Per-task result consumed by the execution branch of `use_results`: the
task's execute result is either a 2-tuple `(y, msg)` or a bare `y`; in both
cases the array `y` may itself be `None`.  Arrays are embedded as lists
over an element type, so `y : Option (List α)`. -/
inductive ExecTaskResult (α V : Type) where
  | withMsg (y : Option (List α)) (msg : V) : ExecTaskResult α V
  | plain (y : Option (List α)) : ExecTaskResult α V
deriving DecidableEq, Repr

/-- The result loop of the execution branch of `ParallelBiFlow.use_results`
(lines 647-666), one task result at a time: split a 2-tuple result into `y`
and a message added to the message accumulator; append a non-`None` y to
`y_results` when `y_results` is still a list — when `y_results` was already
set to `None` the Python `y_results.append(y)` raises and is re-raised as
`BiFlowException` ("Some but not all y return values were None."); a `None`
y sets `y_results = None`; join any forked node into the canonical node. -/
def useResultsExecLoop {α : Type} (join : S → S → S) :
    List (ExecTaskResult α V × Option S) → Option (List (List α)) →
    List V → S → Except (PBErr V) (Option (List (List α)) × List V × S)
  | [], acc, msgs, fn => .ok (acc, msgs, fn)
  | (r, fb) :: rest, acc, msgs, fn =>
    let y := match r with
      | .withMsg y _ => y
      | .plain y => y
    let msgs1 := match r with
      | .withMsg _ m => msgs ++ [m]
      | .plain _ => msgs
    let fn1 := match fb with
      | some b => join fn b
      | none => fn
    match y with
    | some yv =>
      match acc with
      | some ys => useResultsExecLoop join rest (some (ys ++ [yv])) msgs1 fn1
      | none => .error .resultMismatch
    | none => useResultsExecLoop join rest none msgs1 fn1

/-- Execution branch of `ParallelBiFlow.use_results` (lines 638-675): run
the result loop starting from an empty `y_results` list, an empty message
accumulator and a fresh canonical node, then concatenate the collected y
arrays (`n.concatenate`) when `y_results` is not `None`.  The returned
triple is `(y, messages, canonical node)`. -/
def useResultsExec {α : Type} (join : S → S → S) (fnInit : S)
    (results : List (ExecTaskResult α V × Option S)) :
    Except (PBErr V) (Option (List α) × List V × S) := do
  let (acc, msgs, fn) ← useResultsExecLoop join results (some []) [] fnInit
  .ok (acc.map List.flatten, msgs, fn)

/-- State of `OrderedBiExecuteResultContainer` (lines 135-172): the list of
pending execute results keyed by submission index in arrival order (held by
the base class `mdp.parallel.OrderedResultContainer`, which is outside the
sources — modelled from the spec: it stores each result at its submission
index and drains them in submission order) together with the running joined
flow node. -/
structure OrderedBiExec (R B : Type) where
  results : List (Nat × R)
  biflownode : Option B

/-- The empty container (`__init__`). -/
def OrderedBiExec.empty {R B : Type} : OrderedBiExec R B := ⟨[], none⟩

/-- `OrderedBiExecuteResultContainer.add_result` (lines 148-158): store the
execute part keyed by the task index, and join the forked flow node (when
present) into the accumulator — the first forked node becomes the
accumulator, later ones are joined into it in arrival order. -/
def OrderedBiExec.add {R B : Type} (join : B → B → B) (c : OrderedBiExec R B)
    (result : R × Option B) (taskIndex : Nat) : OrderedBiExec R B :=
  { results := c.results ++ [(taskIndex, result.1)]
    biflownode :=
      match result.2 with
      | none => c.biflownode
      | some b =>
        match c.biflownode with
        | none => some b
        | some b0 => some (join b0 b) }

/-- Fold `OrderedBiExec.add` over a whole arrival sequence of
`((executeResult, forkedNode), taskIndex)` entries. -/
def OrderedBiExec.addAll {R B : Type} (join : B → B → B)
    (c : OrderedBiExec R B) (arrivals : List ((R × Option B) × Nat)) :
    OrderedBiExec R B :=
  arrivals.foldl (fun c p => c.add join p.1 p.2) c

/-- Insert an indexed result into a list sorted by submission index
(part of the spec-modelled `OrderedResultContainer.get_results` sort). -/
def insertByKey {R : Type} (p : Nat × R) : List (Nat × R) → List (Nat × R)
  | [] => [p]
  | q :: qs => if p.1 ≤ q.1 then p :: q :: qs else q :: insertByKey p qs

/-- Sort an indexed result list by submission index.  Modelled from the
spec: `OrderedResultContainer.get_results` (outside the sources) returns
the stored results in submission order. -/
def sortByKey {R : Type} : List (Nat × R) → List (Nat × R)
  | [] => []
  | p :: ps => insertByKey p (sortByKey ps)

/-- `OrderedBiExecuteResultContainer.get_results` (lines 160-172): the
execute results in submission order, zipped with the list holding the
joined flow node in its first entry and `None` in every later entry. -/
def OrderedBiExec.drain {R B : Type} (c : OrderedBiExec R B) :
    List (R × Option B) :=
  let ex := (sortByKey c.results).map Prod.snd
  ex.zip (c.biflownode :: List.replicate (ex.length - 1) (none : Option B))

end MdpParallel

namespace MdpNodes

/-- `nmonomials(degree, nvariables)` (expansion_nodes.py lines 6-9): the
number of monomials of the given degree in the given number of variables,
`comb(nvariables + degree - 1, degree)`. -/
def nmonomials (degree nvariables : Nat) : Nat :=
  Nat.choose (nvariables + degree - 1) degree

/-- `expanded_dim(degree, nvariables)` (lines 11-14): size of an expanded
vector, `comb(nvariables + degree, degree) - 1`. -/
def expanded_dim (degree nvariables : Nat) : Nat :=
  Nat.choose (nvariables + degree) degree - 1

/-- Running sums of a list of lengths: `next_lens[:-1].cumsum(axis=0)`
(line 78), each entry included in its own sum as in numpy. -/
def cumsumFrom (s : Nat) : List Nat → List Nat
  | [] => []
  | a :: rest => (s + a) :: cumsumFrom (s + a) rest

/-- numpy `cumsum` over a list of naturals. -/
def cumsum (l : List Nat) : List Nat := cumsumFrom 0 l

/-- Inner loop of `PolynomialExpansionNode._execute` (lines 80-85) in the
column view: for each variable column `c` (the sample vector `x[:, j]`)
with its offset `lens[j]`, multiply `c` elementwise into every
previous-degree monomial vector from offset `lens[j]` on
(`factor = prec[lens[j]:]`, `dexp[k:k+len_, :] = x[:, j] * factor`), and
record `next_lens[j+1] = len_`. -/
def degreeStep {α : Type} [Mul α] (prec : List (List α)) :
    List (List α) → List Nat → List (List α) × List Nat
  | [], _ => ([], [])
  | _ :: _, [] => ([], [])
  | c :: cs, l :: ls =>
    let factor := prec.drop l
    let step := degreeStep prec cs ls
    (factor.map (fun v => List.zipWith (fun a b => a * b) c v) ++ step.1,
     factor.length :: step.2)

/-- Outer loop of `PolynomialExpansionNode._execute` (lines 73-85): one
iteration per degree `i` in `range(2, degree + 1)`; each iteration turns
the previous-degree block `prec` into the next block using the offsets
`lens = next_lens[:-1].cumsum()`, appends the block to the output and
carries `next_lens = [0] ++ factor lengths`. -/
def polyLoop {α : Type} [Mul α] (xcols : List (List α)) :
    Nat → List (List α) → List Nat → List (List α)
  | 0, _, _ => []
  | Nat.succ m, prec, nextLens =>
    let lens := cumsum nextLens.dropLast
    let step := degreeStep prec xcols lens
    step.1 ++ polyLoop xcols m step.1 (0 :: step.2)

/-- `PolynomialExpansionNode._execute` (lines 59-87) in the column view:
the degree-1 block is `x.T` (line 67, the variable columns) and the loop
starts from `next_lens = ones(dim+1)` with `next_lens[0] = 0`
(lines 71-72); `range(2, degree+1)` contributes `degree - 1` iterations. -/
def polyExpandCols {α : Type} [Mul α] (xcols : List (List α))
    (degree : Nat) : List (List α) :=
  xcols ++ polyLoop xcols (degree - 1) xcols (0 :: List.replicate xcols.length 1)

/-- `PolynomialExpansionNode` (lines 38-87): the node state is its degree
(`self._degree = int(degree)`). -/
structure PolynomialExpansionNode where
  degree : Nat
deriving DecidableEq, Repr

/-- `PolynomialExpansionNode._execute`: rows of `x` are samples, columns
are variables; the computation runs on `dexp`, the transposed output
(monomial vectors over samples), and returns `dexp.T` (line 87). -/
def PolynomialExpansionNode.execute {α : Type} [Mul α]
    (node : PolynomialExpansionNode) (x : List (List α)) : List (List α) :=
  (polyExpandCols x.transpose node.degree).transpose

/-- `PolynomialExpansionNode.expanded_dim` (lines 54-57). -/
def PolynomialExpansionNode.expandedDim (node : PolynomialExpansionNode)
    (dim : Nat) : Nat :=
  expanded_dim node.degree dim

/-- `QuadraticExpansionNode` (lines 89-96): its constructor delegates to
`PolynomialExpansionNode.__init__` with the degree fixed to 2 and the class
overrides nothing else. -/
def QuadraticExpansionNode : PolynomialExpansionNode :=
  PolynomialExpansionNode.mk 2

end MdpNodes

namespace MdpParallel

/-- Comparison of indexed results by submission index. -/
def keyLe {R : Type} (a b : Nat × R) : Prop := a.1 ≤ b.1

/-- Join a list of forked flow nodes in arrival order: the first node is
the accumulator, the rest are joined into it; no node yields `none`. -/
def joinAll {B : Type} (join : B → B → B) : List B → Option B
  | [] => none
  | b :: bs => some (bs.foldl join b)

/-- Join a list of forked flow nodes into an optional accumulator. -/
def combineOpt {B : Type} (join : B → B → B) :
    Option B → List B → Option B
  | none, l => joinAll join l
  | some b, l => some (l.foldl join b)

/-- Concrete node operations over `S = Nat`, `V = Nat`, used to instantiate
the claim theorems on explicit inputs.  `train` emits a redirect 4-tuple
from state 0, a malformed 3-tuple from state 5 and a completion otherwise;
`stopTraining` misbehaves from state 50; node 0 keeps training below state
7; `fork` fails below state 3. -/
def demoOps : BiOps Nat Nat where
  train s x msg :=
    (s + x + msg,
      if s = 0 then .pyTuple [x + 1, msg + 1, 77, 88]
      else if s = 5 then .pyTuple [x, msg, 0]
      else .pyNone)
  stopTraining s m :=
    (s + (m.getD 0), if s = 50 then .pyTuple [s] else .pyDict s)
  biReset s := s + 100
  purgeNodes s := s * 2
  join a b := a + b
  fork s := if s < 3 then none else some (s + 1)
  nodeIsTraining s i := s + i < 7
  currentTrainPhase s _ := s % 10

/-- Appending arrivals accumulates the keyed execute results in arrival
order (the forked-node part of each arrival is stripped off). -/
theorem addAll_results {R B : Type} (join : B → B → B)
    (c : OrderedBiExec R B) (l : List ((R × Option B) × Nat)) :
    (OrderedBiExec.addAll join c l).results =
      c.results ++ l.map (fun p => (p.2, p.1.1)) := by
  induction l generalizing c with
  | nil => simp [OrderedBiExec.addAll]
  | cons p rest ih =>
    show (OrderedBiExec.addAll join
        (c.add join p.1 p.2) rest).results = _
    rw [ih]
    simp [OrderedBiExec.add]

/-- Appending arrivals joins the non-nil forked nodes into the accumulator
in arrival order. -/
theorem addAll_biflownode {R B : Type} (join : B → B → B)
    (c : OrderedBiExec R B) (l : List ((R × Option B) × Nat)) :
    (OrderedBiExec.addAll join c l).biflownode =
      combineOpt join c.biflownode (l.filterMap (fun p => p.1.2)) := by
  induction l generalizing c with
  | nil =>
    cases h : c.biflownode <;>
      simp [OrderedBiExec.addAll, combineOpt, joinAll, h]
  | cons p rest ih =>
    show (OrderedBiExec.addAll join
        (c.add join p.1 p.2) rest).biflownode = _
    rw [ih]
    rcases hb : p.1.2 with _ | b
    · simp [OrderedBiExec.add, hb]
    · rcases hc : c.biflownode with _ | b0 <;>
        simp [OrderedBiExec.add, hb, hc, combineOpt, joinAll]

/-- Insertion keeps the list a permutation of the cons. -/
theorem insertByKey_perm {R : Type} (p : Nat × R) (l : List (Nat × R)) :
    List.Perm (insertByKey p l) (p :: l) := by
  induction l with
  | nil => exact List.Perm.refl _
  | cons q qs ih =>
    simp only [insertByKey]
    split
    · exact List.Perm.refl _
    · exact (ih.cons q).trans (List.Perm.swap p q qs)

/-- The sorted results are a permutation of the stored results. -/
theorem sortByKey_perm {R : Type} (l : List (Nat × R)) :
    List.Perm (sortByKey l) l := by
  induction l with
  | nil => exact List.Perm.refl _
  | cons p ps ih =>
    exact (insertByKey_perm p (sortByKey ps)).trans (ih.cons p)

/-- Insertion preserves sortedness by submission index. -/
theorem insertByKey_pairwise {R : Type} (p : Nat × R) {l : List (Nat × R)}
    (h : l.Pairwise keyLe) : (insertByKey p l).Pairwise keyLe := by
  induction l with
  | nil => simp [insertByKey, keyLe]
  | cons q qs ih =>
    rcases List.pairwise_cons.mp h with ⟨hq, hqs⟩
    simp only [insertByKey]
    split
    case isTrue hle =>
      refine List.pairwise_cons.mpr ⟨?_, h⟩
      intro x hx
      rcases List.mem_cons.mp hx with rfl | hx
      · exact hle
      · exact Nat.le_trans hle (hq x hx)
    case isFalse hgt =>
      refine List.pairwise_cons.mpr ⟨?_, ih hqs⟩
      intro x hx
      rcases List.mem_cons.mp ((insertByKey_perm p qs).mem_iff.mp hx) with rfl | hx
      · exact Nat.le_of_not_le hgt
      · exact hq x hx

/-- The drained results are sorted by submission index. -/
theorem sortByKey_pairwise {R : Type} (l : List (Nat × R)) :
    (sortByKey l).Pairwise keyLe := by
  induction l with
  | nil => simp [sortByKey]
  | cons p ps ih => exact insertByKey_pairwise p ih

/-- Two permuted result lists that are both sorted by submission index and
have distinct indices are equal. -/
theorem sorted_nodup_keys_eq {R : Type} {l1 l2 : List (Nat × R)}
    (hp : List.Perm l1 l2) (h1 : l1.Pairwise keyLe) (h2 : l2.Pairwise keyLe)
    (hnd : (l1.map Prod.fst).Nodup) : l1 = l2 := by
  haveI : IsAntisymm (Nat × R) (fun a b => a.1 < b.1) :=
    ⟨fun a b hab hba => absurd hba (Nat.lt_asymm hab)⟩
  have hne1 : l1.Pairwise (fun a b : Nat × R => a.1 ≠ b.1) :=
    List.pairwise_map.mp hnd
  have hnd2 : (l2.map Prod.fst).Nodup := (hp.map Prod.fst).nodup hnd
  have hne2 : l2.Pairwise (fun a b : Nat × R => a.1 ≠ b.1) :=
    List.pairwise_map.mp hnd2
  have hlt1 : l1.Pairwise (fun a b : Nat × R => a.1 < b.1) :=
    (h1.and hne1).imp (fun hab => Nat.lt_of_le_of_ne hab.1 hab.2)
  have hlt2 : l2.Pairwise (fun a b : Nat × R => a.1 < b.1) :=
    (h2.and hne2).imp (fun hab => Nat.lt_of_le_of_ne hab.1 hab.2)
  exact List.eq_of_perm_of_sorted hp hlt1 hlt2

/-- Sorting by submission index is invariant under permutation of the
arrival order when the indices are distinct. -/
theorem sortByKey_eq_of_perm {R : Type} {k1 k2 : List (Nat × R)}
    (hp : List.Perm k2 k1) (hnd : (k1.map Prod.fst).Nodup) :
    sortByKey k2 = sortByKey k1 := by
  have hperm : List.Perm (sortByKey k2) (sortByKey k1) :=
    (sortByKey_perm k2).trans (hp.trans (sortByKey_perm k1).symm)
  have hnd2 : ((sortByKey k2).map Prod.fst).Nodup :=
    (((sortByKey_perm k2).map Prod.fst).symm.nodup
      ((hp.map Prod.fst).symm.nodup hnd))
  exact sorted_nodup_keys_eq hperm (sortByKey_pairwise k2)
    (sortByKey_pairwise k1) hnd2

/-- The execute parts of a drained container are exactly the stored
results sorted by submission index. -/
theorem drain_map_fst {R B : Type} (join : B → B → B)
    (arr : List ((R × Option B) × Nat)) :
    ((OrderedBiExec.addAll join .empty arr).drain).map Prod.fst =
      (sortByKey (arr.map fun p => (p.2, p.1.1))).map Prod.snd := by
  have hres : (OrderedBiExec.addAll join .empty arr).results =
      arr.map (fun p => (p.2, p.1.1)) := by
    simpa [OrderedBiExec.empty] using
      addAll_results join .empty arr
  simp only [OrderedBiExec.drain, hres]
  apply List.map_fst_zip
  simp only [List.length_cons, List.length_replicate]
  omega


/-- C1: For every task input pair (x, msg), the training callable runs the
unit's train in a loop: an outcome that is nil or mapping-shaped ends the
loop; a 4-tuple outcome re-enters train using only its first two fields as
the new (x, message), discarding the trailing fields; any other outcome
shape raises MalformedRoutingError carrying the offending value; after the
loop the bidirectional buffer is reset, the snapshot is purged when purging
is enabled, and the snapshot is returned as the task result. -/
theorem trainCallable_routing_protocol (ops : BiOps S V) (purge : Bool)
    (fuel : Nat) (s : S) (x msg : V) (s1 : S) :
    (ops.train s x msg = (s1, .pyNone) →
      biFlowTrainCall ops purge (fuel + 1) s x msg =
        .ok (if purge then ops.purgeNodes (ops.biReset s1) else ops.biReset s1)) ∧
    (∀ d, ops.train s x msg = (s1, .pyDict d) →
      biFlowTrainCall ops purge (fuel + 1) s x msg =
        .ok (if purge then ops.purgeNodes (ops.biReset s1) else ops.biReset s1)) ∧
    (∀ a b c d, ops.train s x msg = (s1, .pyTuple [a, b, c, d]) →
      biFlowTrainCall ops purge (fuel + 1) s x msg =
        biFlowTrainCall ops purge fuel s1 a b) ∧
    (∀ l, ops.train s x msg = (s1, .pyTuple l) → l.length ≠ 4 →
      biFlowTrainCall ops purge (fuel + 1) s x msg =
        .error (.malformedRouting (.pyTuple l))) := by
  refine ⟨fun h => ?_, fun d h => ?_, fun a b c d h => ?_, fun l h hlen => ?_⟩
  · simp [biFlowTrainCall, h]
  · simp [biFlowTrainCall, h]
  · simp [biFlowTrainCall, h]
  · rcases l with _ | ⟨a, _ | ⟨b, _ | ⟨c, _ | ⟨d, _ | ⟨e, t⟩⟩⟩⟩⟩
    · simp [biFlowTrainCall, h]
    · simp [biFlowTrainCall, h]
    · simp [biFlowTrainCall, h]
    · simp [biFlowTrainCall, h]
    · simp at hlen
    · simp [biFlowTrainCall, h]

/-- Witness for C1 at `demoOps`: from state 0 the train call redirects with
a 4-tuple whose trailing fields are discarded, the reentered call from
state 12 completes, and the returned node is reset and purged. -/
theorem trainCallable_routing_protocol_witness :
    biFlowTrainCall demoOps true 2 0 5 7 = .ok ((12 + 6 + 8 + 100) * 2) := by
  have h4 := (trainCallable_routing_protocol demoOps true 1 0 5 7 12).2.2.1
      6 8 77 88 rfl
  have h0 := (trainCallable_routing_protocol demoOps true 0 12 6 8
      (12 + 6 + 8)).1 rfl
  rw [h4, h0]
  rfl

/-- C3: When the results of a parallel training phase are consumed, every
returned forked unit is joined into the canonical unit, then stopTraining
is called with that phase's stop message; if stopTraining returns a result
that is present but not mapping-shaped the run fails with
MalformedRoutingError carrying the offending value; the bidirectional
buffers are reset; and the phase cursor advances if and only if the unit
reports its training finished. -/
theorem useResultsTrain_spec (ops : BiOps S V) (stopMsgs : Nat → Option V)
    (st : TrainState S) (results : List S) (fn2 : S) (r : PyResult V)
    (h : ops.stopTraining (results.foldl ops.join st.flownode)
          (stopMsgs st.iTrainNode) = (fn2, r)) :
    ((r = .pyNone ∨ ∃ d, r = .pyDict d) →
      useResultsTrain ops stopMsgs st results =
        .ok ⟨ops.biReset fn2,
          if ops.nodeIsTraining (ops.biReset fn2) st.iTrainNode
          then st.iTrainNode else st.iTrainNode + 1⟩) ∧
    (∀ l, r = .pyTuple l →
      useResultsTrain ops stopMsgs st results =
        .error (.malformedRouting (.pyTuple l))) := by
  constructor
  · rintro (rfl | ⟨d, rfl⟩) <;>
      simp [useResultsTrain, stopTrainingChecked, h, bind, Except.bind]
  · rintro l rfl
    simp [useResultsTrain, stopTrainingChecked, h, bind, Except.bind]

/-- Witness for C3 at `demoOps`: the forked nodes 2 and 3 are joined into
the canonical node 1, `stopTraining` completes with a dict, the node is
reset, its training is finished and the cursor advances from 0 to 1. -/
theorem useResultsTrain_spec_witness :
    useResultsTrain demoOps (fun _ => some 4) ⟨1, 0⟩ [2, 3] = .ok ⟨110, 1⟩ := by
  have h := (useResultsTrain_spec demoOps (fun _ => some 4) ⟨1, 0⟩ [2, 3]
      10 (.pyDict 6) rfl).1 (Or.inr ⟨6, rfl⟩)
  rw [h]
  rfl

/-- C7: During parallel training, whenever the worker pool returns an empty
result batch for a phase in which results are expected, the run aborts
fatally with NoResultsError; a non-empty batch is handed to `use_results`,
so the phase never silently stalls. -/
theorem processResultBatch_no_results (ops : BiOps S V)
    (stopMsgs : Nat → Option V) (st : TrainState S) :
    processResultBatch ops stopMsgs st [] = .error .noResults ∧
    (∀ results, results ≠ [] →
      processResultBatch ops stopMsgs st results =
        useResultsTrain ops stopMsgs st results) := by
  refine ⟨rfl, fun results hne => ?_⟩
  cases results with
  | nil => exact absurd rfl hne
  | cons a as => rfl

/-- Witness for C7 at `demoOps`: the empty batch aborts with the
no-results error while the non-empty batch `[2, 3]` is consumed. -/
theorem processResultBatch_no_results_witness :
    processResultBatch demoOps (fun _ => some 4) ⟨1, 0⟩ [] =
      .error .noResults ∧
    processResultBatch demoOps (fun _ => some 4) ⟨1, 0⟩ [2, 3] =
      useResultsTrain demoOps (fun _ => some 4) ⟨1, 0⟩ [2, 3] :=
  ⟨(processResultBatch_no_results demoOps (fun _ => some 4) ⟨1, 0⟩).1,
   (processResultBatch_no_results demoOps (fun _ => some 4) ⟨1, 0⟩).2
      [2, 3] (by decide)⟩

/-- C8: Every call to train or to execute made while a run's phase cursor
is still active (parallel training underway) is rejected immediately with
TrainingInProgressError; the result does not depend on the sequential or
parallel continuations, so no run state is modified. -/
theorem entry_reentrancy_guard (V : Type) {A : Type}
    (schedulerGiven classGiven : Bool) (seq par : A) :
    trainEntry V true schedulerGiven classGiven seq par =
      .error .trainingInProgress ∧
    executeEntry V true schedulerGiven classGiven seq par =
      .error .trainingInProgress :=
  ⟨rfl, rfl⟩

/-- C9: Calling train with a train_callable_class but no scheduler, or
execute with an execute_callable_class but no scheduler, always raises a
ParallelBiFlowException instead of silently ignoring the supplied class;
the result does not depend on the sequential or parallel continuations, so
no training or execution is performed. -/
theorem entry_callable_class_requires_scheduler (V : Type) {A : Type}
    (seq par : A) :
    trainEntry V false false true seq par = .error .callableNoScheduler ∧
    executeEntry V false false true seq par = .error .callableNoScheduler :=
  ⟨rfl, rfl⟩

/-- C4: For every trainable unit whose fork fails with UnsupportedForkError
in the current phase, the orchestrator recovers by training that unit
locally over the full iterator, calling stopTraining, resetting
bidirectional buffers, and advancing the cursor if the unit reports
training finished; the fork error is never surfaced to the caller (the
phase search continues with the local result), and fork is attempted
afresh for the next phase (the recursive call consults `fork` again). -/
theorem nextTrainPhase_local_fallback (ops : BiOps S V)
    (callableFuel flowLen : Nat) (trainData : Nat → List (V × V))
    (stopMsgs : Nat → Option V) (fuel : Nat) (fn : S) (i : Nat)
    (hi : i < flowLen) (ht : ops.nodeIsTraining fn i = true)
    (hfork : ops.fork fn = none) :
    nextTrainPhase ops callableFuel flowLen trainData stopMsgs (fuel + 1) fn i =
      (localTrainPhase ops callableFuel fn (trainData i) (stopMsgs i)).bind
        (fun fn1 =>
          nextTrainPhase ops callableFuel flowLen trainData stopMsgs fuel fn1
            (if ops.nodeIsTraining fn1 i then i else i + 1)) ∧
    localTrainPhase ops callableFuel fn (trainData i) (stopMsgs i) =
      (localTrainSteps ops callableFuel fn (trainData i)).bind
        (fun fn1 => stopTrainingChecked ops fn1 (stopMsgs i)) := by
  constructor
  · simp [nextTrainPhase, hi, ht, hfork, bind, Except.bind]
  · rfl

/-- Witness for C4 at `demoOps`: node 0 is training at state 1 but
`fork 1` fails; the local fallback trains over the iterator item (5, 7),
stops training, resets, finds the node finished, advances the cursor past
the single-node flow and reports the training finished. -/
theorem nextTrainPhase_local_fallback_witness :
    nextTrainPhase demoOps 2 1 (fun _ => [(5, 7)]) (fun _ => some 4) 2 1 0 =
      .ok (.finished 217) := by
  have h := nextTrainPhase_local_fallback demoOps 2 1 (fun _ => [(5, 7)])
      (fun _ => some 4) 1 1 0 (by decide) (by decide) rfl
  rw [h.1]
  rfl

/-- C6 (amended): whenever the first training task of a phase cannot be
built because the data iterator yields no item, the run aborts with
EmptyIteratorError; the diagnostic reports that the iteration could not be
repeated exactly when the unit's current train phase counter equals 1
(its second training phase), and reports that the iterator is empty for
every other phase — including the third and later training phases. -/
theorem nextTrainPhase_empty_iterator_diag (ops : BiOps S V)
    (callableFuel flowLen : Nat) (trainData : Nat → List (V × V))
    (stopMsgs : Nat → Option V) (fuel : Nat) (fn fk : S) (i : Nat)
    (hi : i < flowLen) (ht : ops.nodeIsTraining fn i = true)
    (hfork : ops.fork fn = some fk) (hdata : trainData i = []) :
    nextTrainPhase ops callableFuel flowLen trainData stopMsgs (fuel + 1) fn i =
      .error (if ops.currentTrainPhase fn i = 1
        then .repeatedIter i else .emptyIter i) := by
  by_cases hp : ops.currentTrainPhase fn i = 1 <;>
    simp [nextTrainPhase, hi, ht, hfork, hdata, hp]

/-- Witness for C6 (amended) at `demoOps`: at state 3 the phase counter is
3 (a fourth training phase), so the empty iterable aborts with the plain
empty-iterator diagnostic. -/
theorem nextTrainPhase_empty_iterator_diag_witness :
    nextTrainPhase demoOps 1 1 (fun _ => []) (fun _ => none) 1 3 0 =
      .error (.emptyIter 0) := by
  have h := nextTrainPhase_empty_iterator_diag demoOps 1 1 (fun _ => [])
      (fun _ => none) 0 3 4 0 (by decide) (by decide) rfl rfl
  rw [h]
  rfl

/-- Counterexample to C6 as stated: the claim says every repeated (second
or later) training phase gets the could-not-be-repeated diagnostic, but at
state 6 the phase counter is 6 — a repeated phase — and the code still
raises the plain empty-iterator diagnostic, because the source only
compares the phase counter against 1. -/
theorem nextTrainPhase_repeated_diag_counterexample :
    2 ≤ demoOps.currentTrainPhase 6 0 ∧
    demoOps.nodeIsTraining 6 0 = true ∧
    demoOps.fork 6 = some 7 ∧
    nextTrainPhase demoOps 1 1 (fun _ => []) (fun _ => none) 1 6 0 =
      .error (.emptyIter 0) ∧
    nextTrainPhase demoOps 1 1 (fun _ => []) (fun _ => none) 1 6 0 ≠
      .error (.repeatedIter 0) := by
  refine ⟨by decide, by decide, rfl, rfl, fun hcontra => ?_⟩
  have : (PBErr.emptyIter 0 : PBErr Nat) = .repeatedIter 0 := by
    have h1 : nextTrainPhase demoOps 1 1 (fun _ => []) (fun _ => none) 1 6 0 =
        .error (.emptyIter 0) := rfl
    exact Except.error.inj (h1.symm.trans hcontra)
  exact PBErr.noConfusion this

/-- C5 (code evaluation): the claim demands ResultMismatchError whenever
some but not all per-task y results are nil, but the code raises it only
when a non-nil y arrives after a nil one; with the nil y arriving last the
call silently returns a nil y, discarding the earlier non-nil values. -/
theorem useResultsExec_partial_none_eval :
    useResultsExec (α := Nat) (V := Nat) (S := Nat) (fun a b => a + b) 0
        [(.plain (some [1]), none), (.plain none, none)] =
      .ok (none, [], 0) ∧
    useResultsExec (α := Nat) (V := Nat) (S := Nat) (fun a b => a + b) 0
        [(.plain none, none), (.plain (some [1]), none)] =
      .error .resultMismatch :=
  ⟨rfl, rfl⟩

end MdpParallel

namespace MdpNodes

/-- C10: For every input array, QuadraticExpansionNode produces exactly the
same output as PolynomialExpansionNode constructed with degree 2: its
constructor delegates with degree fixed to 2 and it overrides nothing else,
so the two nodes are observationally equivalent (same execute output and
same expanded dimension). -/
theorem quadratic_eq_polynomial_degree2 {α : Type} [Mul α]
    (x : List (List α)) :
    QuadraticExpansionNode.execute x =
      (PolynomialExpansionNode.mk 2).execute x ∧
    (∀ d, QuadraticExpansionNode.expandedDim d =
      (PolynomialExpansionNode.mk 2).expandedDim d) :=
  ⟨rfl, fun _ => rfl⟩

end MdpNodes

namespace MdpParallel

/-- C2: For every set of execution results added to the order-preserving
result container with distinct submission indices, in any arrival order,
drain returns the execute results sorted by submission index, zipped with
a snapshot list whose first slot holds the join of all non-nil forked
snapshots (in arrival order) and whose every later slot is nil; the final
reassembled output (the execute parts) is therefore independent of worker
completion order. -/
theorem orderedBiExec_drain_spec {R B : Type} (join : B → B → B)
    (arr arr2 : List ((R × Option B) × Nat))
    (hnd : (arr.map Prod.snd).Nodup) (hperm : List.Perm arr2 arr) :
    (OrderedBiExec.addAll join .empty arr).drain =
      ((sortByKey (arr.map fun p => (p.2, p.1.1))).map Prod.snd).zip
        (joinAll join (arr.filterMap fun p => p.1.2) ::
          List.replicate
            (((sortByKey (arr.map fun p => (p.2, p.1.1))).map Prod.snd).length - 1)
            none) ∧
    (sortByKey (arr.map fun p => (p.2, p.1.1))).Pairwise keyLe ∧
    List.Perm (sortByKey (arr.map fun p => (p.2, p.1.1)))
      (arr.map fun p => (p.2, p.1.1)) ∧
    ((OrderedBiExec.addAll join .empty arr2).drain).map Prod.fst =
      ((OrderedBiExec.addAll join .empty arr).drain).map Prod.fst := by
  have hres : (OrderedBiExec.addAll join .empty arr).results =
      arr.map (fun p => (p.2, p.1.1)) := by
    simpa [OrderedBiExec.empty] using addAll_results join .empty arr
  have hbif : (OrderedBiExec.addAll join .empty arr).biflownode =
      joinAll join (arr.filterMap fun p => p.1.2) := by
    simpa [OrderedBiExec.empty, combineOpt] using
      addAll_biflownode join .empty arr
  refine ⟨?_, sortByKey_pairwise _, sortByKey_perm _, ?_⟩
  · simp only [OrderedBiExec.drain, hres, hbif]
  · have hkeys : ((arr.map fun p => (p.2, p.1.1)).map Prod.fst).Nodup := by
      rw [List.map_map]
      exact hnd
    have hkperm : List.Perm (arr2.map fun p => (p.2, p.1.1))
        (arr.map fun p => (p.2, p.1.1)) := hperm.map _
    rw [drain_map_fst join arr2, drain_map_fst join arr,
      sortByKey_eq_of_perm hkperm hkeys]

/-- Witness for C2: two results with snapshots arrive out of submission
order; drain returns them in submission order with the joined snapshot
attached to the first slot only, and the arrival order does not change the
execute parts. -/
theorem orderedBiExec_drain_spec_witness :
    (OrderedBiExec.addAll (fun a b => a + b) .empty
        ([((10, some 1), 1), ((20, some 2), 0)] :
          List ((Nat × Option Nat) × Nat))).drain =
      [(20, some 3), (10, none)] := by
  have h := orderedBiExec_drain_spec (fun a b => a + b)
      [((10, some 1), 1), ((20, some 2), 0)]
      [((20, some 2), 0), ((10, some 1), 1)]
      (by decide) (by decide)
  rw [h.1]
  rfl

end MdpParallel
